import Mathlib

/-!
Verification of the `quantum_gnss_guard` package.

Shallow embedding of the relevant modules:
* `gnss_spoof.py`  (`GNSSSpoof.apply_spoof`)      — exact rational arithmetic;
* `quantum_channel.py` (`compute_coincidences`)   — exact rational arithmetic;
* `simulator.py`   (`Simulator.run`)              — the Monte Carlo driver loop;
* `utils.py`       (`hellinger_distance`)         — real arithmetic;
* `qtt.py`         (`detect_sync_anomalies`, `simulate_decoherence`) — real arithmetic.

Randomness is made explicit: every random draw the Python code performs
becomes a parameter of the embedded function, so theorems quantify over all
possible draws.  Operations that can raise in Python (numpy boolean-mask
indexing with a mask whose length differs from the array's) return `Option`,
with `none` for the raising executions.
-/

/-! ### `gnss_spoof.py` — `GNSSSpoof.apply_spoof`

Python sources of randomness in one `apply_spoof` call:
* `np.random.random(n)` for the Bernoulli mask  (field `u`),
* `np.random.normal(0, noise_ps*1e-12, np.sum(mask))` (field `noise`),
* `np.random.uniform(...)` single offset draw for replica/hybrid (field `offset`).
-/

/-- Configuration of `GNSSSpoof` (`__init__`): attack type and numeric knobs. -/
structure SpoofConfig where
  attack_type : String
  delta_ns : ℚ
  noise_ps : ℚ
  spoof_rate : ℚ
deriving Repr, DecidableEq

/-- One call's worth of random draws, made explicit. -/
structure SpoofRand where
  u : List ℚ
  noise : List ℚ
  offset : ℚ
deriving Repr, DecidableEq

/-- `xs[mask] += c` for a boolean mask: numpy raises when the mask length
differs from the array length, modelled as `none`. -/
def maskedAddConst (xs : List ℚ) (mask : List Bool) (c : ℚ) : Option (List ℚ) :=
  if xs.length = mask.length then
    some (List.zipWith (fun x m => if m then x + c else x) xs mask)
  else none

/-- `xs[mask] += vec` where `vec` supplies one summand per selected position,
consumed left to right.  numpy raises when the mask length differs from the
array length, or when `vec` does not have exactly one entry per selected
position; both are modelled as `none`. -/
def maskedAddVec : List ℚ → List Bool → List ℚ → Option (List ℚ)
  | [], [], vs => if vs.isEmpty then some [] else none
  | x :: xs, true :: ms, v :: vs => (maskedAddVec xs ms vs).map (fun r => (x + v) :: r)
  | _ :: _, true :: _, [] => none
  | x :: xs, false :: ms, vs => (maskedAddVec xs ms vs).map (fun r => x :: r)
  | _ :: _, [], _ => none
  | [], _ :: _, _ => none

/-- `GNSSSpoof.apply_spoof(gnss_times, quantum_dt)`.

`spoof_mask = np.random.random(n) < spoof_rate` with `n = len(gnss_times)`;
the draws are the field `r.u` (the theorems assume `r.u.length = gnss.length`
since numpy draws exactly `n` values).  The three attack branches mirror the
source; an unrecognized attack type falls through and returns the copies. -/
def GNSSSpoof.apply_spoof (cfg : SpoofConfig) (r : SpoofRand)
    (gnss_times quantum_dt : List ℚ) : Option (List ℚ × List ℚ) :=
  let spoof_mask := r.u.map (fun x => decide (x < cfg.spoof_rate))
  let spoofed_gnss := gnss_times
  let spoofed_dt := quantum_dt
  if cfg.attack_type = "time-push" then
    -- spoofed_gnss[spoof_mask] += self.delta_ns * 1e-9
    -- spoofed_dt[spoof_mask] += (self.delta_ns * 1e-9 + np.random.normal(...))
    do
      let g ← maskedAddConst spoofed_gnss spoof_mask (cfg.delta_ns * (1 / 10 ^ 9))
      let d ← maskedAddVec spoofed_dt spoof_mask
        (r.noise.map (fun z => cfg.delta_ns * (1 / 10 ^ 9) + z))
      pure (g, d)
  else if cfg.attack_type = "replica" then
    -- offset = np.random.uniform(-100e-9, 100e-9), one draw used for both streams
    -- spoofed_gnss[spoof_mask] = gnss_times[spoof_mask] + offset
    -- spoofed_dt[spoof_mask] = quantum_dt[spoof_mask] + offset
    do
      let g ← maskedAddConst spoofed_gnss spoof_mask r.offset
      let d ← maskedAddConst spoofed_dt spoof_mask r.offset
      pure (g, d)
  else if cfg.attack_type = "hybrid" then
    -- push_delta = self.delta_ns * 1e-9; replica_offset = np.random.uniform(-50e-9, 50e-9)
    -- spoofed_gnss[spoof_mask] += push_delta + replica_offset
    -- spoofed_dt[spoof_mask] += push_delta + replica_offset + np.random.normal(...)
    do
      let g ← maskedAddConst spoofed_gnss spoof_mask (cfg.delta_ns * (1 / 10 ^ 9) + r.offset)
      let d ← maskedAddVec spoofed_dt spoof_mask
        (r.noise.map (fun z => cfg.delta_ns * (1 / 10 ^ 9) + r.offset + z))
      pure (g, d)
  else
    pure (spoofed_gnss, spoofed_dt)

/-! ### `quantum_channel.py` — `QuantumChannel.compute_coincidences`

Events are `(time, detector)` pairs.  The method first sorts by time
(`events.sort_values('time')`), then runs a double scan: for each `i`, walk
`j = i+1, i+2, ...` while `times[j] - times[i] <= window_s`, recording
`times[j] - times[i]` whenever the detectors differ. -/

/-- Insert an event into a time-sorted list (sorting by the `time` component). -/
def insertByTime (e : ℚ × ℕ) : List (ℚ × ℕ) → List (ℚ × ℕ)
  | [] => [e]
  | f :: rest => if e.1 ≤ f.1 then e :: f :: rest else f :: insertByTime e rest

/-- `events.sort_values('time')`: sort the event list by time. -/
def sortByTime : List (ℚ × ℕ) → List (ℚ × ℕ)
  | [] => []
  | e :: rest => insertByTime e (sortByTime rest)

/-- The inner `while j < len and times[j] - times[i] <= window_s` loop: scan
forward from the event after `e`, stop at the first event outside the window,
record `t_j - t_i` for different detectors. -/
def coincInner (e : ℚ × ℕ) (w : ℚ) : List (ℚ × ℕ) → List ℚ
  | [] => []
  | f :: rest =>
    if f.1 - e.1 ≤ w then
      (if e.2 ≠ f.2 then [f.1 - e.1] else []) ++ coincInner e w rest
    else []

/-- The outer `while i < len(times) - 1` loop over start indices. -/
def coincScan (w : ℚ) : List (ℚ × ℕ) → List ℚ
  | [] => []
  | e :: rest => coincInner e w rest ++ coincScan w rest

/-- `QuantumChannel.compute_coincidences(events, window_ps)`. -/
def QuantumChannel.compute_coincidences (events : List (ℚ × ℕ)) (window_ps : ℚ) : List ℚ :=
  let window_s := window_ps * (1 / 10 ^ 12)
  coincScan window_s (sortByTime events)

/-- Per the spec's words: one `Δt = t_j − t_i` for **every** ordered index pair
`i < j` whose time difference is within the window and whose detectors differ,
enumerated exactly once, in scan order. -/
def coincidencePairsSpec (w : ℚ) : List (ℚ × ℕ) → List ℚ
  | [] => []
  | e :: rest =>
    (rest.filter (fun f => decide (f.1 - e.1 ≤ w) && decide (e.2 ≠ f.2))).map
      (fun f => f.1 - e.1) ++ coincidencePairsSpec w rest

/-! ### `simulator.py` — `Simulator.run`

The Monte Carlo driver iterates `for run_idx in range(mc_runs)`, over the
passes, then over `self.spoof_configs`, calling `run_single_pass` inside a
`try`/`except Exception` whose handler appends a dummy result row.  The body
of `run_single_pass` is stochastic, so it is modelled as an oracle
`single : run_idx → pass_idx → attack_idx → Except Unit ResultRow` quantified
over in the theorems: `.error` is an execution of `run_single_pass` that
raises.  The handler itself evaluates `attack_config['attack_type']`; a config
dict lacking that key is modelled by `attack_type = none`, and the handler's
own `KeyError` then propagates out of `run`. -/

/-- An entry of `self.spoof_configs`; only presence of the `'attack_type'` key
matters to the driver loop itself. -/
structure AttackConfig where
  attack_type : Option String
deriving Repr, DecidableEq

/-- The subset of a result-row dict the driver's error handling touches. -/
structure ResultRow where
  pass_id : String
  attack_type : String
  n_pairs : ℕ
  detection_score : ℚ
  decision : Bool
  tpr : ℚ
  fpr : ℚ
deriving Repr, DecidableEq

/-- The dummy row the `except` handler appends. -/
def dummyRow (run_idx : ℕ) (atk : String) : ResultRow :=
  { pass_id := "ERROR_" ++ toString run_idx
    attack_type := atk
    n_pairs := 0
    detection_score := 1 / 2
    decision := false
    tpr := 1 / 2
    fpr := 1 / 2 }

/-- One `try: results.append(run_single_pass(...)) except Exception:` block. -/
def Simulator.handleAttack (single : ℕ → ℕ → ℕ → Except Unit ResultRow)
    (run_idx pass_idx attack_idx : ℕ) (cfg : AttackConfig) : Except Unit ResultRow :=
  match single run_idx pass_idx attack_idx with
  | .ok result => .ok result
  | .error _ =>
    -- handler: results.append({..., 'attack_type': attack_config['attack_type'], ...})
    match cfg.attack_type with
    | some s => .ok (dummyRow run_idx s)
    | none => .error ()

/-- `for attack_config in self.spoof_configs` (with the running attack index). -/
def Simulator.runAttacks (single : ℕ → ℕ → ℕ → Except Unit ResultRow)
    (run_idx pass_idx : ℕ) : ℕ → List AttackConfig → Except Unit (List ResultRow)
  | _, [] => .ok []
  | k, cfg :: rest => do
    let row ← Simulator.handleAttack single run_idx pass_idx k cfg
    let rows ← Simulator.runAttacks single run_idx pass_idx (k + 1) rest
    pure (row :: rows)

/-- `for _, pass_info in passes.iterrows()` over the given pass indices. -/
def Simulator.runPassList (single : ℕ → ℕ → ℕ → Except Unit ResultRow)
    (run_idx : ℕ) (attacks : List AttackConfig) : List ℕ → Except Unit (List ResultRow)
  | [] => .ok []
  | p :: ps => do
    let rows ← Simulator.runAttacks single run_idx p 0 attacks
    let rest ← Simulator.runPassList single run_idx attacks ps
    pure (rows ++ rest)

/-- `for run_idx in range(mc_runs)` over the given run indices. -/
def Simulator.runRunList (single : ℕ → ℕ → ℕ → Except Unit ResultRow)
    (attacks : List AttackConfig) (n_passes : ℕ) : List ℕ → Except Unit (List ResultRow)
  | [] => .ok []
  | rdx :: rs => do
    let rows ← Simulator.runPassList single rdx attacks (List.range n_passes)
    let rest ← Simulator.runRunList single attacks n_passes rs
    pure (rows ++ rest)

/-- `Simulator.run(mc_runs)` over `n_passes` passes and the configured attacks. -/
def Simulator.run (single : ℕ → ℕ → ℕ → Except Unit ResultRow)
    (mc_runs n_passes : ℕ) (attacks : List AttackConfig) : Except Unit (List ResultRow) :=
  Simulator.runRunList single attacks n_passes (List.range mc_runs)

/-- Per the spec's words: the row a (run, pass, attack) combination contributes —
the computed result if `run_single_pass` returned, the neutral dummy row if it
raised. -/
def expectedRow (single : ℕ → ℕ → ℕ → Except Unit ResultRow)
    (run_idx pass_idx attack_idx : ℕ) (cfg : AttackConfig) : ResultRow :=
  match single run_idx pass_idx attack_idx with
  | .ok r => r
  | .error _ => dummyRow run_idx (cfg.attack_type.getD "")

/-- Spec-side enumeration of the rows of one (run, pass) over the attack list. -/
def expectedAttackRows (single : ℕ → ℕ → ℕ → Except Unit ResultRow)
    (run_idx pass_idx : ℕ) : ℕ → List AttackConfig → List ResultRow
  | _, [] => []
  | k, cfg :: rest =>
    expectedRow single run_idx pass_idx k cfg ::
      expectedAttackRows single run_idx pass_idx (k + 1) rest

/-- Spec-side enumeration of all rows of the whole Monte Carlo batch. -/
def expectedRunRows (single : ℕ → ℕ → ℕ → Except Unit ResultRow)
    (mc_runs n_passes : ℕ) (attacks : List AttackConfig) : List ResultRow :=
  ((List.range mc_runs).map (fun rdx =>
    ((List.range n_passes).map (fun p =>
      expectedAttackRows single rdx p 0 attacks)).flatten)).flatten

/-! ### `utils.py` — `hellinger_distance`

`np.sqrt(np.sum((np.sqrt(p) - np.sqrt(q))**2)) / np.sqrt(2)`.  The function
performs no validation of its own; the only length constraint is numpy's 1-d
broadcasting rule for the subtraction: equal lengths subtract elementwise, a
length-1 operand broadcasts, anything else raises (modelled `none`). -/

/-- numpy elementwise subtraction of two 1-d arrays, with broadcasting. -/
noncomputable def npSubBroadcast (a b : List ℝ) : Option (List ℝ) :=
  if a.length = b.length then some (List.zipWith (fun x y => x - y) a b)
  else if b.length = 1 then some (a.map (fun x => x - b.headI))
  else if a.length = 1 then some (b.map (fun y => a.headI - y))
  else none

/-- `hellinger_distance(p, q)` from `utils.py`. -/
noncomputable def hellinger_distance (p q : List ℝ) : Option ℝ :=
  (npSubBroadcast (p.map Real.sqrt) (q.map Real.sqrt)).map
    (fun d => Real.sqrt ((d.map (fun x => x ^ 2)).sum) / Real.sqrt 2)

/-! ### `qtt.py` — `QuantumTimeTransfer.detect_sync_anomalies` and
`simulate_decoherence` -/

/-- The fields of the result dict that the anomaly-scoring logic produces
(the outlier-count fields are independent of the claims and omitted). -/
structure SyncAnomalyResult where
  mean_error_ps : ℝ
  std_error_ps : ℝ
  chi2_statistic : ℝ
  anomaly_score : ℝ
  detection : Prop

/-- `detect_sync_anomalies(sync_events, threshold_ps)` on the `sync_error`
column.  `threshold = threshold_ps * 1e-12` is computed and never used, as in
the source.  `np.mean` is `sum/N`, `np.std` is `sqrt(Σ(e−mean)²/N)`, and
`chi2_stat = Σ(e−mean)² / (std² + 1e-20)`. -/
noncomputable def QuantumTimeTransfer.detect_sync_anomalies
    (sync_errors : List ℝ) (threshold_ps : ℝ) : SyncAnomalyResult :=
  let _threshold : ℝ := threshold_ps * (1 / 10 ^ 12)
  let mean_error : ℝ := sync_errors.sum / (sync_errors.length : ℝ)
  let std_error : ℝ := Real.sqrt ((sync_errors.map (fun e => (e - mean_error) ^ 2)).sum /
    (sync_errors.length : ℝ))
  let chi2_stat : ℝ := (sync_errors.map (fun e => (e - mean_error) ^ 2)).sum /
    (std_error ^ 2 + 1 / 10 ^ 20)
  let anomaly_score : ℝ := min 1 (chi2_stat / (sync_errors.length : ℝ))
  { mean_error_ps := mean_error * 10 ^ 12
    std_error_ps := std_error * 10 ^ 12
    chi2_statistic := chi2_stat
    anomaly_score := anomaly_score
    detection := anomaly_score > 1 / 2 }

/-- `np.mean(sync_errors)`, spec side. -/
noncomputable def syncMean (errs : List ℝ) : ℝ := errs.sum / (errs.length : ℝ)

/-- `Σ(error − mean)²`, spec side. -/
noncomputable def syncSqDevSum (errs : List ℝ) : ℝ :=
  (errs.map (fun e => (e - syncMean errs) ^ 2)).sum

/-- The claim's chi-square formula, `Σ(error−mean)²/std²` with `std = np.std`,
written exactly as claimed (no regularizer). -/
noncomputable def chi2ClaimSpec (errs : List ℝ) : ℝ :=
  syncSqDevSum errs / (Real.sqrt (syncSqDevSum errs / (errs.length : ℝ))) ^ 2

/-- The pointwise fidelity of `simulate_decoherence`:
`np.clip(exp(-t/T1) * exp(-t/T2) * 0.5 + 0.5, 0, 1)`. -/
noncomputable def decoherenceFidelity (t T1 T2 : ℝ) : ℝ :=
  min 1 (max 0 (Real.exp (-(t / T1)) * Real.exp (-(t / T2)) * (1 / 2) + 1 / 2))

/-- `simulate_decoherence(t_list, T1, T2)`: `amplitude_decay = exp(-t/T1)`,
`phase_decay = exp(-t/T2)`, `fidelity = amplitude*phase*0.5 + 0.5`, clipped
to `[0, 1]`, elementwise over `t_list`. -/
noncomputable def QuantumTimeTransfer.simulate_decoherence
    (t_list : List ℝ) (T1 T2 : ℝ) : List ℝ :=
  t_list.map (fun t => decoherenceFidelity t T1 T2)

/-- With every mask draw strictly below a rate of 1 the Bernoulli mask is all-true. -/
lemma mask_all_true_of_rate_one (u : List ℚ) (hu : ∀ x ∈ u, 0 ≤ x ∧ x < 1) :
    u.map (fun x => decide (x < (1 : ℚ))) = List.replicate u.length true := by
  induction u with
  | nil => rfl
  | cons a t ih =>
    have ha := hu a (by simp)
    simp only [List.map_cons, List.length_cons, List.replicate_succ, List.cons.injEq]
    exact ⟨decide_eq_true ha.2, ih (fun x hx => hu x (by simp [hx]))⟩

lemma maskedAddConst_replicate_true (xs : List ℚ) (c : ℚ) :
    maskedAddConst xs (List.replicate xs.length true) c = some (xs.map (fun x => x + c)) := by
  unfold maskedAddConst
  rw [if_pos (by simp)]
  congr 1
  induction xs with
  | nil => rfl
  | cons a t ih => simpa [List.replicate_succ] using ih

lemma maskedAddVec_replicate_true (xs vs : List ℚ) (h : vs.length = xs.length) :
    maskedAddVec xs (List.replicate xs.length true) vs =
      some (List.zipWith (· + ·) xs vs) := by
  induction xs generalizing vs with
  | nil =>
    cases vs with
    | nil => rfl
    | cons v vs => simp at h
  | cons a t ih =>
    cases vs with
    | nil => simp at h
    | cons v vs =>
      simp only [List.length_cons, List.replicate_succ, maskedAddVec, List.zipWith_cons_cons]
      rw [ih vs (by simpa using h)]
      rfl

/-- **C2.** `apply_spoof` with `spoof_rate = 1`, `attack_type = "time-push"`,
`delta_ns = 10`: every output GNSS sample equals its input plus exactly
10 ns = 1/10^8 s, whatever the noise draws were — no noise enters the GNSS
path. -/
theorem apply_spoof_time_push_rate_one (noise_ps : ℚ) (r : SpoofRand)
    (gnss_times quantum_dt : List ℚ)
    (hlen : r.u.length = gnss_times.length)
    (hu : ∀ x ∈ r.u, 0 ≤ x ∧ x < 1)
    (hdt : quantum_dt.length = gnss_times.length)
    (hnoise : r.noise.length = gnss_times.length) :
    ∃ d, GNSSSpoof.apply_spoof ⟨"time-push", 10, noise_ps, 1⟩ r gnss_times quantum_dt =
      some (gnss_times.map (fun x => x + 1 / 10 ^ 8), d) := by
  have hmask : r.u.map (fun x => decide (x < (1 : ℚ))) =
      List.replicate gnss_times.length true := by
    rw [mask_all_true_of_rate_one r.u hu, hlen]
  refine ⟨List.zipWith (· + ·) quantum_dt (r.noise.map (fun z => 10 * (1 / 10 ^ 9) + z)), ?_⟩
  unfold GNSSSpoof.apply_spoof
  rw [if_pos rfl]
  simp only [hmask]
  rw [show gnss_times.length = quantum_dt.length from hdt.symm]
  rw [maskedAddVec_replicate_true quantum_dt _ (by simpa using hnoise.trans hdt.symm)]
  rw [hdt, maskedAddConst_replicate_true]
  have hfun : (fun x : ℚ => x + 10 * (1 / 10 ^ 9)) = fun x => x + 1 / 10 ^ 8 := by
    funext x; norm_num
  simp only [hfun, Option.bind_eq_bind, Option.some_bind]
  rfl

/-- Witness for C2 at concrete inputs. -/
theorem apply_spoof_time_push_rate_one_witness :
    ∃ d, GNSSSpoof.apply_spoof ⟨"time-push", 10, 5, 1⟩ ⟨[0, 0], [3, 4], 0⟩ [0, 5] [1, 2] =
      some ([0 + 1 / 10 ^ 8, 5 + 1 / 10 ^ 8], d) :=
  apply_spoof_time_push_rate_one 5 ⟨[0, 0], [3, 4], 0⟩ [0, 5] [1, 2]
    (by decide) (by decide) (by decide) (by decide)

lemma maskedAddConst_eq_zipWith (xs : List ℚ) (mask : List Bool) (c : ℚ)
    (h : xs.length = mask.length) :
    maskedAddConst xs mask c =
      some (List.zipWith (fun x m => if m then x + c else x) xs mask) := by
  unfold maskedAddConst
  rw [if_pos h]

/-- **C5.** `apply_spoof` with `attack_type = "replica"`: one single offset value
(the unique `np.random.uniform(-100e-9, 100e-9)` draw of the call) is added to
the mask-selected samples of *both* streams, and the result does not depend on
the Gaussian-noise draws at all. -/
theorem apply_spoof_replica_single_offset (delta_ns noise_ps rate : ℚ) (r : SpoofRand)
    (gnss_times quantum_dt : List ℚ)
    (hlen : r.u.length = gnss_times.length)
    (hdt : quantum_dt.length = gnss_times.length)
    (hoff : -(100 / 10 ^ 9) < r.offset ∧ r.offset < 100 / 10 ^ 9) :
    GNSSSpoof.apply_spoof ⟨"replica", delta_ns, noise_ps, rate⟩ r gnss_times quantum_dt =
      some
        (List.zipWith (fun x m => if m then x + r.offset else x) gnss_times
          (r.u.map (fun x => decide (x < rate))),
         List.zipWith (fun x m => if m then x + r.offset else x) quantum_dt
          (r.u.map (fun x => decide (x < rate)))) ∧
    ∀ noise : List ℚ,
      GNSSSpoof.apply_spoof ⟨"replica", delta_ns, noise_ps, rate⟩ ⟨r.u, noise, r.offset⟩
          gnss_times quantum_dt =
        GNSSSpoof.apply_spoof ⟨"replica", delta_ns, noise_ps, rate⟩ r gnss_times quantum_dt := by
  constructor
  · have h1 := maskedAddConst_eq_zipWith gnss_times (r.u.map fun x => decide (x < rate))
      r.offset (by simp [hlen])
    have h2 := maskedAddConst_eq_zipWith quantum_dt (r.u.map fun x => decide (x < rate))
      r.offset (by simp [hlen, hdt])
    simp [GNSSSpoof.apply_spoof, h1, h2]
  · intro noise
    unfold GNSSSpoof.apply_spoof
    rfl

/-- Witness for C5 at concrete inputs. -/
theorem apply_spoof_replica_single_offset_witness :
    GNSSSpoof.apply_spoof ⟨"replica", 10, 5, 1⟩ ⟨[0, 0], [9], 0⟩ [3, 4] [5, 6] =
      some
        (List.zipWith (fun x m => if m then x + (0:ℚ) else x) [3, 4]
          ([0, 0].map (fun x => decide (x < (1:ℚ)))),
         List.zipWith (fun x m => if m then x + (0:ℚ) else x) [5, 6]
          ([0, 0].map (fun x => decide (x < (1:ℚ))))) ∧
    ∀ noise : List ℚ,
      GNSSSpoof.apply_spoof ⟨"replica", 10, 5, 1⟩ ⟨[0, 0], noise, 0⟩ [3, 4] [5, 6] =
        GNSSSpoof.apply_spoof ⟨"replica", 10, 5, 1⟩ ⟨[0, 0], [9], 0⟩ [3, 4] [5, 6] :=
  apply_spoof_replica_single_offset 10 5 1 ⟨[0, 0], [9], 0⟩ [3, 4] [5, 6]
    (by decide) (by decide) (by simp)

lemma maskedAddConst_spec (xs : List ℚ) (mask : List Bool) (c : ℚ)
    (h : xs.length = mask.length) :
    ∃ ys, maskedAddConst xs mask c = some ys ∧ ys.length = xs.length ∧
      ∀ i, mask.getD i true = false → ys.getD i 0 = xs.getD i 0 := by
  refine ⟨_, maskedAddConst_eq_zipWith xs mask c h, by simp [h], ?_⟩
  induction xs generalizing mask with
  | nil => intro i hm; simp
  | cons x xs ih =>
    intro i hm
    cases mask with
    | nil => simp at h
    | cons m ms =>
      cases i with
      | zero =>
        simp only [List.getD_cons_zero] at hm ⊢
        simp [List.zipWith_cons_cons, hm]
      | succ j =>
        simp only [List.getD_cons_succ] at hm ⊢
        exact ih ms (by simpa using h) j hm

lemma maskedAddVec_spec (xs : List ℚ) (mask : List Bool) (vs : List ℚ)
    (h1 : xs.length = mask.length) (h2 : vs.length = mask.count true) :
    ∃ ys, maskedAddVec xs mask vs = some ys ∧ ys.length = xs.length ∧
      ∀ i, mask.getD i true = false → ys.getD i 0 = xs.getD i 0 := by
  induction xs generalizing mask vs with
  | nil =>
    cases mask with
    | nil =>
      have : vs = [] := List.eq_nil_of_length_eq_zero (by simpa using h2)
      subst this
      exact ⟨[], rfl, rfl, by intro i hm; simp⟩
    | cons m ms => simp at h1
  | cons x xs ih =>
    cases mask with
    | nil => simp at h1
    | cons m ms =>
      cases m with
      | true =>
        cases vs with
        | nil => simp [List.count_cons_self] at h2
        | cons v vs =>
          obtain ⟨ys, hys, hlen, hun⟩ := ih ms vs (by simpa using h1)
            (by simpa [List.count_cons_self] using h2)
          refine ⟨(x + v) :: ys, ?_, by simpa using hlen, ?_⟩
          · simp [maskedAddVec, hys]
          · intro i hm
            cases i with
            | zero => simp at hm
            | succ j =>
              simp only [List.getD_cons_succ] at hm ⊢
              exact hun j hm
      | false =>
        obtain ⟨ys, hys, hlen, hun⟩ := ih ms vs (by simpa using h1)
          (by simpa [List.count_cons_of_ne] using h2)
        refine ⟨x :: ys, ?_, by simpa using hlen, ?_⟩
        · simp [maskedAddVec, hys]
        · intro i hm
          cases i with
          | zero => simp
          | succ j =>
            simp only [List.getD_cons_succ] at hm ⊢
            exact hun j hm

/-- **C9 (amended).** `apply_spoof` with an unrecognized attack type returns both
inputs unchanged (for any input lengths); for each recognized attack type and
*equal-length* inputs the call succeeds, preserves both lengths, and leaves
every sample not selected by the Bernoulli mask unchanged.  (The equal-length
proviso is forced: with mismatched lengths the boolean-mask indexing of
`quantum_dt` raises, see the counterexample.) -/
theorem apply_spoof_frame (cfg : SpoofConfig) (r : SpoofRand)
    (gnss_times quantum_dt : List ℚ) :
    (cfg.attack_type ∉ (["time-push", "replica", "hybrid"] : List String) →
      GNSSSpoof.apply_spoof cfg r gnss_times quantum_dt = some (gnss_times, quantum_dt)) ∧
    (cfg.attack_type ∈ (["time-push", "replica", "hybrid"] : List String) →
      r.u.length = gnss_times.length →
      quantum_dt.length = gnss_times.length →
      r.noise.length = (r.u.map (fun x => decide (x < cfg.spoof_rate))).count true →
      ∃ g d, GNSSSpoof.apply_spoof cfg r gnss_times quantum_dt = some (g, d) ∧
        g.length = gnss_times.length ∧ d.length = quantum_dt.length ∧
        ∀ i, (r.u.map (fun x => decide (x < cfg.spoof_rate))).getD i true = false →
          g.getD i 0 = gnss_times.getD i 0 ∧ d.getD i 0 = quantum_dt.getD i 0) := by
  constructor
  · intro hout
    simp only [List.mem_cons, List.not_mem_nil, or_false, not_or] at hout
    obtain ⟨h1, h2, h3⟩ := hout
    unfold GNSSSpoof.apply_spoof
    rw [if_neg h1, if_neg h2, if_neg h3]
    rfl
  · intro hin hlen hdt hnoise
    have hml : (r.u.map (fun x => decide (x < cfg.spoof_rate))).length = gnss_times.length := by
      simp [hlen]
    simp only [List.mem_cons, List.not_mem_nil, or_false] at hin
    rcases hin with heq | heq | heq
    all_goals unfold GNSSSpoof.apply_spoof
    · rw [if_pos heq]
      obtain ⟨g, hg, hgl, hgu⟩ := maskedAddConst_spec gnss_times _
        (cfg.delta_ns * (1 / 10 ^ 9)) hml.symm
      obtain ⟨d, hd, hdl, hdu⟩ := maskedAddVec_spec quantum_dt _
        (r.noise.map (fun z => cfg.delta_ns * (1 / 10 ^ 9) + z))
        (hdt.trans hml.symm) (by simpa using hnoise)
      refine ⟨g, d, ?_, hgl, hdl, fun i hm => ⟨hgu i hm, hdu i hm⟩⟩
      rw [hg]
      simp only [Option.bind_eq_bind, Option.some_bind, hd]
      rfl
    · rw [if_neg (by rw [heq]; decide), if_pos heq]
      obtain ⟨g, hg, hgl, hgu⟩ := maskedAddConst_spec gnss_times _ r.offset hml.symm
      obtain ⟨d, hd, hdl, hdu⟩ := maskedAddConst_spec quantum_dt _ r.offset
        (hdt.trans hml.symm)
      refine ⟨g, d, ?_, hgl, hdl, fun i hm => ⟨hgu i hm, hdu i hm⟩⟩
      rw [hg]
      simp only [Option.bind_eq_bind, Option.some_bind, hd]
      rfl
    · rw [if_neg (by rw [heq]; decide), if_neg (by rw [heq]; decide), if_pos heq]
      obtain ⟨g, hg, hgl, hgu⟩ := maskedAddConst_spec gnss_times _
        (cfg.delta_ns * (1 / 10 ^ 9) + r.offset) hml.symm
      obtain ⟨d, hd, hdl, hdu⟩ := maskedAddVec_spec quantum_dt _
        (r.noise.map (fun z => cfg.delta_ns * (1 / 10 ^ 9) + r.offset + z))
        (hdt.trans hml.symm) (by simpa using hnoise)
      refine ⟨g, d, ?_, hgl, hdl, fun i hm => ⟨hgu i hm, hdu i hm⟩⟩
      rw [hg]
      simp only [Option.bind_eq_bind, Option.some_bind, hd]
      rfl

/-- Counterexample to C9 as stated: with a recognized attack type and inputs of
*different* lengths, the boolean mask (built from the GNSS length) does not
match `quantum_dt`, numpy raises, and no output is produced at all. -/
theorem apply_spoof_frame_counterexample :
    GNSSSpoof.apply_spoof ⟨"time-push", 10, 5, 1⟩ ⟨[0], [0], 0⟩ [0] [] = none := by
  simp [GNSSSpoof.apply_spoof, maskedAddConst, maskedAddVec]

/-- Witness for C9 at concrete inputs. -/
theorem apply_spoof_frame_witness :
    GNSSSpoof.apply_spoof ⟨"none", 10, 5, 1⟩ ⟨[0], [0], 0⟩ [3] [4] = some ([3], [4]) ∧
    (∃ g d, GNSSSpoof.apply_spoof ⟨"time-push", 10, 5, 1⟩ ⟨[0], [0], 0⟩ [3] [4] =
        some (g, d) ∧
      g.length = ([3] : List ℚ).length ∧ d.length = ([4] : List ℚ).length ∧
      ∀ i, (([0] : List ℚ).map (fun x => decide (x < (1:ℚ)))).getD i true = false →
        g.getD i 0 = ([3] : List ℚ).getD i 0 ∧ d.getD i 0 = ([4] : List ℚ).getD i 0) :=
  ⟨(apply_spoof_frame ⟨"none", 10, 5, 1⟩ ⟨[0], [0], 0⟩ [3] [4]).1 (by decide),
   (apply_spoof_frame ⟨"time-push", 10, 5, 1⟩ ⟨[0], [0], 0⟩ [3] [4]).2
     (by decide) rfl rfl (by decide)⟩

lemma mem_insertByTime {e f : ℚ × ℕ} {l : List (ℚ × ℕ)} :
    f ∈ insertByTime e l ↔ f = e ∨ f ∈ l := by
  induction l with
  | nil => simp [insertByTime]
  | cons g rest ih =>
    by_cases h : e.1 ≤ g.1
    · simp [insertByTime, h]
    · simp [insertByTime, h, ih]
      tauto

lemma insertByTime_sorted {e : ℚ × ℕ} {l : List (ℚ × ℕ)}
    (h : l.Pairwise (fun a b => a.1 ≤ b.1)) :
    (insertByTime e l).Pairwise (fun a b => a.1 ≤ b.1) := by
  induction l with
  | nil => simp [insertByTime]
  | cons f rest ih =>
    rcases List.pairwise_cons.mp h with ⟨hf, hrest⟩
    by_cases hef : e.1 ≤ f.1
    · rw [insertByTime, if_pos hef]
      refine List.pairwise_cons.mpr ⟨?_, h⟩
      intro g hg
      rcases List.mem_cons.mp hg with rfl | hg
      · exact hef
      · exact le_trans hef (hf g hg)
    · rw [insertByTime, if_neg hef]
      refine List.pairwise_cons.mpr ⟨?_, ih hrest⟩
      intro g hg
      rcases mem_insertByTime.mp hg with rfl | hg
      · exact le_of_lt (lt_of_not_le hef)
      · exact hf g hg

lemma sortByTime_sorted (l : List (ℚ × ℕ)) :
    (sortByTime l).Pairwise (fun a b => a.1 ≤ b.1) := by
  induction l with
  | nil => simp [sortByTime]
  | cons e rest ih => exact insertByTime_sorted ih

lemma insertByTime_of_le {e : ℚ × ℕ} {l : List (ℚ × ℕ)}
    (h : ∀ f ∈ l, e.1 ≤ f.1) : insertByTime e l = e :: l := by
  cases l with
  | nil => rfl
  | cons f rest => exact if_pos (h f (by simp))

/-- Sorting a list already sorted by time is the identity. -/
lemma sortByTime_eq_self {l : List (ℚ × ℕ)}
    (h : l.Pairwise (fun a b => a.1 ≤ b.1)) : sortByTime l = l := by
  induction l with
  | nil => rfl
  | cons e rest ih =>
    rcases List.pairwise_cons.mp h with ⟨he, hrest⟩
    rw [sortByTime, ih hrest, insertByTime_of_le he]

/-- On a sorted tail, the early-exit inner scan records exactly the pairs the
spec enumerates: cutting at the first out-of-window event loses nothing. -/
lemma coincInner_eq_filter (e : ℚ × ℕ) (w : ℚ) (l : List (ℚ × ℕ))
    (hsort : l.Pairwise (fun a b => a.1 ≤ b.1)) :
    coincInner e w l =
      (l.filter (fun f => decide (f.1 - e.1 ≤ w) && decide (e.2 ≠ f.2))).map
        (fun f => f.1 - e.1) := by
  induction l with
  | nil => rfl
  | cons f rest ih =>
    rcases List.pairwise_cons.mp hsort with ⟨hf, hrest⟩
    by_cases hw : f.1 - e.1 ≤ w
    · rw [coincInner, if_pos hw]
      by_cases hd : e.2 ≠ f.2
      · rw [List.filter_cons_of_pos (by simp [hw, hd]), List.map_cons, ih hrest]
        simp [hd]
      · rw [List.filter_cons_of_neg (by simp [hd]), ih hrest]
        simp [hd]
    · rw [coincInner, if_neg hw]
      have : rest.filter (fun f => decide (f.1 - e.1 ≤ w) && decide (e.2 ≠ f.2)) = [] := by
        rw [List.filter_eq_nil]
        intro g hg
        have : ¬ g.1 - e.1 ≤ w := fun hle =>
          hw (le_trans (by linarith [hf g hg]) hle)
        simp [this]
      rw [List.filter_cons_of_neg (by simp [hw]), this]
      rfl

lemma coincScan_eq_spec (w : ℚ) (l : List (ℚ × ℕ))
    (hsort : l.Pairwise (fun a b => a.1 ≤ b.1)) :
    coincScan w l = coincidencePairsSpec w l := by
  induction l with
  | nil => rfl
  | cons e rest ih =>
    rcases List.pairwise_cons.mp hsort with ⟨_, hrest⟩
    rw [coincScan, coincidencePairsSpec, ih hrest, coincInner_eq_filter e w rest hrest]

/-- **C1.** On a time-sorted event list with a positive window,
`compute_coincidences` records `Δt = t_j − t_i` exactly once for every ordered
index pair `i < j` within the window and on different detectors — the full
pair enumeration of the spec, events reused across pairs (no exclusivity). -/
theorem compute_coincidences_exact_pairs (events : List (ℚ × ℕ)) (window_ps : ℚ)
    (hw : 0 < window_ps)
    (hsorted : events.Pairwise (fun a b => a.1 ≤ b.1)) :
    QuantumChannel.compute_coincidences events window_ps =
      coincidencePairsSpec (window_ps * (1 / 10 ^ 12)) events := by
  unfold QuantumChannel.compute_coincidences
  rw [sortByTime_eq_self hsorted]
  exact coincScan_eq_spec _ events hsorted

/-- Witness for C1 at concrete inputs. -/
theorem compute_coincidences_exact_pairs_witness :
    QuantumChannel.compute_coincidences [(0, 1), (0, 2), (1, 1)] 1 =
      coincidencePairsSpec (1 * (1 / 10 ^ 12)) [(0, 1), (0, 2), (1, 1)] :=
  compute_coincidences_exact_pairs [(0, 1), (0, 2), (1, 1)] 1 (by decide) (by decide)

lemma coincInner_bounds (e : ℚ × ℕ) (w : ℚ) (l : List (ℚ × ℕ))
    (hge : ∀ f ∈ l, e.1 ≤ f.1) :
    ∀ x ∈ coincInner e w l, 0 ≤ x ∧ x ≤ w := by
  induction l with
  | nil => intro x hx; simp [coincInner] at hx
  | cons f rest ih =>
    intro x hx
    rw [coincInner] at hx
    by_cases hw : f.1 - e.1 ≤ w
    · rw [if_pos hw] at hx
      rcases List.mem_append.mp hx with hx | hx
      · by_cases hd : e.2 ≠ f.2
        · rw [if_pos hd] at hx
          rcases List.mem_singleton.mp hx with rfl
          exact ⟨by linarith [hge f (by simp)], hw⟩
        · rw [if_neg hd] at hx
          simp at hx
      · exact ih (fun g hg => hge g (by simp [hg])) x hx
    · rw [if_neg hw] at hx
      simp at hx

lemma coincScan_bounds (w : ℚ) (l : List (ℚ × ℕ))
    (hsort : l.Pairwise (fun a b => a.1 ≤ b.1)) :
    ∀ x ∈ coincScan w l, 0 ≤ x ∧ x ≤ w := by
  induction l with
  | nil => intro x hx; simp [coincScan] at hx
  | cons e rest ih =>
    rcases List.pairwise_cons.mp hsort with ⟨he, hrest⟩
    intro x hx
    rcases List.mem_append.mp hx with hx | hx
    · exact coincInner_bounds e w rest he x hx
    · exact ih hrest x hx

/-- **C10.** Every `Δt` that `compute_coincidences` returns lies in
`[0, window_ps·1e−12]`: the function sorts by time first, so differences are
never negative, and the scan guard keeps them within the window. -/
theorem compute_coincidences_dt_bounds (events : List (ℚ × ℕ)) (window_ps : ℚ)
    (hw : 0 ≤ window_ps) :
    ∀ x ∈ QuantumChannel.compute_coincidences events window_ps,
      0 ≤ x ∧ x ≤ window_ps * (1 / 10 ^ 12) := by
  unfold QuantumChannel.compute_coincidences
  exact coincScan_bounds _ _ (sortByTime_sorted events)

/-- Witness for C10 at a concrete recorded coincidence. -/
theorem compute_coincidences_dt_bounds_witness :
    0 ≤ (0 : ℚ) ∧ (0 : ℚ) ≤ 1 * (1 / 10 ^ 12) :=
  compute_coincidences_dt_bounds [(0, 1), (0, 2)] 1 (by decide) 0
    (by simp [QuantumChannel.compute_coincidences, sortByTime, insertByTime, coincScan,
      coincInner])

lemma runAttacks_ok (single : ℕ → ℕ → ℕ → Except Unit ResultRow)
    (run_idx pass_idx : ℕ) (attacks : List AttackConfig)
    (hcfg : ∀ cfg ∈ attacks, cfg.attack_type.isSome) (k : ℕ) :
    Simulator.runAttacks single run_idx pass_idx k attacks =
      .ok (expectedAttackRows single run_idx pass_idx k attacks) := by
  induction attacks generalizing k with
  | nil => rfl
  | cons cfg rest ih =>
    have hhead := hcfg cfg (by simp)
    have htail : ∀ c ∈ rest, c.attack_type.isSome := fun c hc => hcfg c (by simp [hc])
    rw [Simulator.runAttacks, expectedAttackRows]
    unfold Simulator.handleAttack expectedRow
    cases hs : single run_idx pass_idx k with
    | ok r =>
      simp only [ih htail]
      rfl
    | error e =>
      cases hat : cfg.attack_type with
      | none => rw [hat] at hhead; simp at hhead
      | some s =>
        simp only [hat, ih htail]
        rfl

lemma runPassList_ok (single : ℕ → ℕ → ℕ → Except Unit ResultRow)
    (run_idx : ℕ) (attacks : List AttackConfig)
    (hcfg : ∀ cfg ∈ attacks, cfg.attack_type.isSome) (ps : List ℕ) :
    Simulator.runPassList single run_idx attacks ps =
      .ok ((ps.map (fun p => expectedAttackRows single run_idx p 0 attacks)).flatten) := by
  induction ps with
  | nil => rfl
  | cons p ps ih =>
    rw [Simulator.runPassList, runAttacks_ok single run_idx p attacks hcfg 0, ih]
    rfl

lemma runRunList_ok (single : ℕ → ℕ → ℕ → Except Unit ResultRow)
    (attacks : List AttackConfig) (n_passes : ℕ)
    (hcfg : ∀ cfg ∈ attacks, cfg.attack_type.isSome) (rs : List ℕ) :
    Simulator.runRunList single attacks n_passes rs =
      .ok ((rs.map (fun rdx =>
        ((List.range n_passes).map (fun p =>
          expectedAttackRows single rdx p 0 attacks)).flatten)).flatten) := by
  induction rs with
  | nil => rfl
  | cons rdx rs ih =>
    rw [Simulator.runRunList, runPassList_ok single rdx attacks hcfg, ih]
    rfl

/-- **C3 (amended).** Provided every configured attack dict carries the
`'attack_type'` key, the Monte Carlo driver never aborts: whatever
`run_single_pass` does at each (run, pass, attack) combination, `run` returns
normally with one row per combination — the computed row where the pass
succeeded, the neutral dummy row (score 1/2, decision `false`) where it
raised — and iteration covers every combination. -/
theorem simulator_run_partial_failure (single : ℕ → ℕ → ℕ → Except Unit ResultRow)
    (mc_runs n_passes : ℕ) (attacks : List AttackConfig)
    (hcfg : ∀ cfg ∈ attacks, cfg.attack_type.isSome) :
    Simulator.run single mc_runs n_passes attacks =
      .ok (expectedRunRows single mc_runs n_passes attacks) ∧
    ∀ rdx s, (dummyRow rdx s).detection_score = 1 / 2 ∧ (dummyRow rdx s).decision = false := by
  exact ⟨runRunList_ok single attacks n_passes hcfg (List.range mc_runs),
    fun rdx s => ⟨rfl, rfl⟩⟩

/-- Witness for C3 at a concrete oracle: the pass raises at run 0 and succeeds
at run 1; the batch still returns both rows. -/
theorem simulator_run_partial_failure_witness :
    Simulator.run
        (fun rdx _ _ => if rdx = 0 then .error () else .ok (dummyRow 7 "x")) 2 1
        [⟨some "time-push"⟩] =
      .ok (expectedRunRows
        (fun rdx _ _ => if rdx = 0 then .error () else .ok (dummyRow 7 "x")) 2 1
        [⟨some "time-push"⟩]) ∧
    ∀ rdx s, (dummyRow rdx s).detection_score = 1 / 2 ∧ (dummyRow rdx s).decision = false :=
  simulator_run_partial_failure
    (fun rdx _ _ => if rdx = 0 then .error () else .ok (dummyRow 7 "x")) 2 1
    [⟨some "time-push"⟩] (by decide)

/-- Counterexample to C3 as stated: one pass raises while its attack config
lacks the `'attack_type'` key; the handler's own lookup then raises and the
whole batch aborts with an error instead of appending a dummy row. -/
theorem simulator_run_abort_counterexample :
    Simulator.run (fun _ _ _ => .error ()) 1 1 [⟨none⟩] = .error () := by
  rfl

lemma zipWith_sub_self (l : List ℝ) :
    List.zipWith (fun x y => x - y) l l = List.replicate l.length 0 := by
  induction l with
  | nil => rfl
  | cons a t ih => simp [List.replicate_succ, ih]

/-- **C8.** The Hellinger distance of any valid normalized probability vector
to itself is 0. -/
theorem hellinger_distance_self (p : List ℝ)
    (hnn : ∀ x ∈ p, 0 ≤ x) (hsum : p.sum = 1) :
    hellinger_distance p p = some 0 := by
  unfold hellinger_distance npSubBroadcast
  rw [if_pos rfl]
  rw [zipWith_sub_self]
  have hmap : (List.replicate (p.map Real.sqrt).length (0:ℝ)).map (fun x => x ^ 2) =
      List.replicate (p.map Real.sqrt).length 0 := by
    simp
  rw [Option.map_some', hmap, List.sum_replicate]
  simp

/-- Witness for C8 at a concrete normalized vector. -/
theorem hellinger_distance_self_witness : hellinger_distance [1] [1] = some 0 :=
  hellinger_distance_self [1] (by simp) (by simp)

lemma sum_map_sq_zipWith_sqrt (p : List ℝ) :
    ∀ q : List ℝ, p.length = q.length →
    ((List.zipWith (fun x y => x - y) (p.map Real.sqrt) (q.map Real.sqrt)).map
        (fun x => x ^ 2)).sum =
      ∑ i ∈ Finset.range p.length,
        (Real.sqrt (p.getD i 0) - Real.sqrt (q.getD i 0)) ^ 2 := by
  induction p with
  | nil => intro q h; simp
  | cons a t ih =>
    intro q h
    cases q with
    | nil => simp at h
    | cons b s =>
      simp only [List.map_cons, List.zipWith_cons_cons, List.sum_cons, List.length_cons]
      rw [Finset.sum_range_succ']
      simp only [List.getD_cons_succ, List.getD_cons_zero]
      rw [ih s (by simpa using h)]
      ring

/-- **C6 (amended).** `hellinger_distance` performs no explicit length check:
with equal lengths it returns `sqrt(Σ(√p−√q)²)/√2`; with differing lengths it
fails (via the numpy broadcasting error, the repository defines no
`InvalidInput`) **unless** one operand has length 1, in which case numpy
broadcasts and a value is returned. -/
theorem hellinger_distance_lengths (p q : List ℝ) :
    (p.length ≠ q.length → p.length ≠ 1 → q.length ≠ 1 →
      hellinger_distance p q = none) ∧
    (p.length = q.length →
      hellinger_distance p q =
        some (Real.sqrt (∑ i ∈ Finset.range p.length,
          (Real.sqrt (p.getD i 0) - Real.sqrt (q.getD i 0)) ^ 2) / Real.sqrt 2)) := by
  constructor
  · intro hne hp1 hq1
    unfold hellinger_distance npSubBroadcast
    rw [if_neg (by simpa using hne), if_neg (by simpa using hq1),
      if_neg (by simpa using hp1)]
    rfl
  · intro heq
    unfold hellinger_distance npSubBroadcast
    rw [if_pos (by simpa using heq), Option.map_some',
      sum_map_sq_zipWith_sqrt p q heq]

/-- Witness for C6 at concrete inputs, one per conjunct. -/
theorem hellinger_distance_lengths_witness :
    hellinger_distance [1, 0, 0] [1, 0] = none ∧
    hellinger_distance [1, 0] [0, 1] =
      some (Real.sqrt (∑ i ∈ Finset.range ([1, 0] : List ℝ).length,
        (Real.sqrt (([1, 0] : List ℝ).getD i 0) -
          Real.sqrt (([0, 1] : List ℝ).getD i 0)) ^ 2) / Real.sqrt 2) :=
  ⟨(hellinger_distance_lengths [1, 0, 0] [1, 0]).1 (by simp) (by simp) (by simp),
   (hellinger_distance_lengths [1, 0] [0, 1]).2 rfl⟩

/-- Counterexample to C6 as stated: the lengths differ (2 vs 1) yet no error
is raised — numpy broadcasts the length-1 operand and a value is returned. -/
theorem hellinger_distance_broadcast_counterexample :
    ([1, 0] : List ℝ).length ≠ ([1] : List ℝ).length ∧
    hellinger_distance [1, 0] [1] ≠ none := by
  constructor
  · simp
  · unfold hellinger_distance npSubBroadcast
    simp

lemma syncSqDevSum_nonneg (errs : List ℝ) : 0 ≤ syncSqDevSum errs :=
  List.sum_nonneg (by
    intro x hx
    obtain ⟨e, _, rfl⟩ := List.mem_map.mp hx
    exact sq_nonneg _)

/-- **C4 (amended).** For non-empty input the anomaly score is
`min(1, chi2/N)` with `chi2 = Σ(e−mean)²/(std² + 1e-20)` — the denominator
carries the `1e-20` regularizer that the original claim omits — detection
holds iff the score exceeds 1/2, and `threshold_ps` has no effect on any
returned field. -/
theorem detect_sync_anomalies_score (sync_errors : List ℝ) (threshold_ps : ℝ)
    (hne : sync_errors ≠ []) :
    (QuantumTimeTransfer.detect_sync_anomalies sync_errors threshold_ps).anomaly_score =
      min 1 (syncSqDevSum sync_errors /
        (syncSqDevSum sync_errors / sync_errors.length + 1 / 10 ^ 20) /
        sync_errors.length) ∧
    ((QuantumTimeTransfer.detect_sync_anomalies sync_errors threshold_ps).detection ↔
      (QuantumTimeTransfer.detect_sync_anomalies sync_errors threshold_ps).anomaly_score
        > 1 / 2) ∧
    ∀ t : ℝ, QuantumTimeTransfer.detect_sync_anomalies sync_errors t =
      QuantumTimeTransfer.detect_sync_anomalies sync_errors threshold_ps := by
  refine ⟨?_, ?_, ?_⟩
  · simp only [QuantumTimeTransfer.detect_sync_anomalies, syncSqDevSum, syncMean]
    have hs : (0:ℝ) ≤ (List.map
        (fun e => (e - sync_errors.sum / (sync_errors.length : ℝ)) ^ 2) sync_errors).sum :=
      List.sum_nonneg (by
        intro x hx
        obtain ⟨e, _, rfl⟩ := List.mem_map.mp hx
        exact sq_nonneg _)
    rw [Real.sq_sqrt (div_nonneg hs (Nat.cast_nonneg _))]
  · simp only [QuantumTimeTransfer.detect_sync_anomalies]
  · intro t
    unfold QuantumTimeTransfer.detect_sync_anomalies
    rfl

/-- Witness for C4 at a concrete error list. -/
theorem detect_sync_anomalies_score_witness :
    (QuantumTimeTransfer.detect_sync_anomalies [0] 1).anomaly_score =
      min 1 (syncSqDevSum [0] /
        (syncSqDevSum [0] / ([0] : List ℝ).length + 1 / 10 ^ 20) /
        ([0] : List ℝ).length) ∧
    ((QuantumTimeTransfer.detect_sync_anomalies [0] 1).detection ↔
      (QuantumTimeTransfer.detect_sync_anomalies [0] 1).anomaly_score > 1 / 2) ∧
    ∀ t : ℝ, QuantumTimeTransfer.detect_sync_anomalies [0] t =
      QuantumTimeTransfer.detect_sync_anomalies [0] 1 :=
  detect_sync_anomalies_score [0] 1 (by simp)

/-- Counterexample to C4 as stated: on `sync_errors = [0, 2]` the claim's
formula `min(1, (Σ(e−mean)²/std²)/N)` equals 1, but the code's score is
`1/(1 + 1e-20) < 1` because of the `1e-20` regularizer in the denominator. -/
theorem detect_sync_anomalies_score_counterexample :
    (QuantumTimeTransfer.detect_sync_anomalies [0, 2] 1).anomaly_score ≠
      min 1 (chi2ClaimSpec [0, 2] / ([0, 2] : List ℝ).length) := by
  have hmean : syncMean [0, 2] = 1 := by
    unfold syncMean
    norm_num
  have hS : syncSqDevSum [0, 2] = 2 := by
    unfold syncSqDevSum
    rw [hmean]
    norm_num
  have hclaim : min 1 (chi2ClaimSpec [0, 2] / ([0, 2] : List ℝ).length) = 1 := by
    unfold chi2ClaimSpec
    rw [hS]
    norm_num [Real.sqrt_one]
  have hcode : (QuantumTimeTransfer.detect_sync_anomalies [0, 2] 1).anomaly_score =
      min 1 (2 / (1 + 1 / 10 ^ 20) / 2) := by
    simp only [QuantumTimeTransfer.detect_sync_anomalies]
    have hsum : (List.map (fun e => (e - ([0, 2] : List ℝ).sum /
        ((([0, 2] : List ℝ).length) : ℝ)) ^ 2) ([0, 2] : List ℝ)).sum = 2 := by
      norm_num
    rw [hsum]
    norm_num [Real.sqrt_one]
  rw [hcode, hclaim]
  have h1 : (2 : ℝ) / (1 + 1 / 10 ^ 20) / 2 < 1 := by
    rw [div_div]
    rw [div_lt_one (by positivity)]
    norm_num
  rw [min_eq_right (le_of_lt h1)]
  exact ne_of_lt h1

lemma decoherenceFidelity_antitone {T1 T2 : ℝ} (hT1 : 0 < T1) (hT2 : 0 < T2)
    {t t' : ℝ} (h : t ≤ t') :
    decoherenceFidelity t' T1 T2 ≤ decoherenceFidelity t T1 T2 := by
  unfold decoherenceFidelity
  refine min_le_min le_rfl (max_le_max le_rfl ?_)
  have h1 : Real.exp (-(t' / T1)) ≤ Real.exp (-(t / T1)) :=
    Real.exp_le_exp.mpr (neg_le_neg (div_le_div_of_nonneg_right h hT1.le))
  have h2 : Real.exp (-(t' / T2)) ≤ Real.exp (-(t / T2)) :=
    Real.exp_le_exp.mpr (neg_le_neg (div_le_div_of_nonneg_right h hT2.le))
  have hmul : Real.exp (-(t' / T1)) * Real.exp (-(t' / T2)) ≤
      Real.exp (-(t / T1)) * Real.exp (-(t / T2)) :=
    mul_le_mul h1 h2 (le_of_lt (Real.exp_pos _)) (le_of_lt (Real.exp_pos _))
  have := mul_le_mul_of_nonneg_right hmul (by norm_num : (0:ℝ) ≤ 1 / 2)
  linarith

lemma decoherenceFidelity_mem_unit (t T1 T2 : ℝ) :
    0 ≤ decoherenceFidelity t T1 T2 ∧ decoherenceFidelity t T1 T2 ≤ 1 :=
  ⟨le_min zero_le_one (le_max_left 0 _), min_le_left 1 _⟩

/-- **C7.** For nonnegative, increasing times and positive `T1`, `T2`, the
fidelity sequence of `simulate_decoherence` is monotonically non-increasing,
every value lies in `[0, 1]`, and the fidelity at `t = 0` is exactly 1. -/
theorem simulate_decoherence_props (t_list : List ℝ) (T1 T2 : ℝ)
    (hT1 : 0 < T1) (hT2 : 0 < T2)
    (hnn : ∀ t ∈ t_list, 0 ≤ t)
    (hsorted : t_list.Chain' (fun a b => a ≤ b)) :
    (QuantumTimeTransfer.simulate_decoherence t_list T1 T2).Chain' (fun a b => b ≤ a) ∧
    (∀ x ∈ QuantumTimeTransfer.simulate_decoherence t_list T1 T2, 0 ≤ x ∧ x ≤ 1) ∧
    decoherenceFidelity 0 T1 T2 = 1 := by
  refine ⟨?_, ?_, ?_⟩
  · unfold QuantumTimeTransfer.simulate_decoherence
    rw [List.chain'_map]
    exact hsorted.imp (fun {a b} h => decoherenceFidelity_antitone hT1 hT2 h)
  · intro x hx
    obtain ⟨t, _, rfl⟩ := List.mem_map.mp hx
    exact decoherenceFidelity_mem_unit t T1 T2
  · unfold decoherenceFidelity
    norm_num

/-- Witness for C7 at concrete inputs. -/
theorem simulate_decoherence_props_witness :
    (QuantumTimeTransfer.simulate_decoherence [0, 1] 1 1).Chain' (fun a b => b ≤ a) ∧
    (∀ x ∈ QuantumTimeTransfer.simulate_decoherence [0, 1] 1 1, 0 ≤ x ∧ x ≤ 1) ∧
    decoherenceFidelity 0 1 1 = 1 :=
  simulate_decoherence_props [0, 1] 1 1 (by simp) (by simp) (by simp) (by simp)
